import Mathlib

set_option maxHeartbeats 1600000

/-!
Verification development for the GSET question-bank repository
(`gset_question_bank` tools and the `notes` batch orchestrator).

The Python tool entry points are embedded shallowly:

* pure string manipulation (Markdown-to-LaTeX conversion, answer-key line
  parsing, path/suffix computations) is translated to executable Lean
  functions over `List Char` / `String`;
* effectful code (file system, subprocess, external AI service) is modelled
  by explicit environment records describing the outcome of each external
  interaction, with the tool logic translated faithfully around them;
* Python exceptions are modelled by `Except`/`Option` outcomes in the
  environment; each `except` clause of the source is a `match` branch here.
-/

/-! ### Basic character and list helpers -/

/-- The left-brace character (written numerically to keep string literals free
of raw braces). -/
def lbrace : Char := Char.ofNat 123

/-- The right-brace character. -/
def rbrace : Char := Char.ofNat 125

/-- The backquote character used by the Markdown inline-code pattern. -/
def btick : Char := Char.ofNat 96

/-- Boolean prefix test on character lists. -/
def isPref : List Char → List Char → Bool
  | [], _ => true
  | _ :: _, [] => false
  | a :: as, b :: bs => a == b && isPref as bs

/-- Split a character list on newline characters; mirrors Python
`str.split('\n')` (consecutive separators produce empty pieces). -/
def splitNL : List Char → List (List Char)
  | [] => [[]]
  | c :: rest =>
    if c == '\n' then [] :: splitNL rest
    else
      match splitNL rest with
      | [] => [[c]]
      | l :: ls => (c :: l) :: ls

/-- Join pieces with newline characters (inverse of `splitNL`). -/
def joinNL (ls : List (List Char)) : List Char :=
  List.intercalate ['\n'] ls

/-! ### Markdown to LaTeX conversion (`MarkdownToLaTeXTool._run`)

The Python tool applies nine `re.sub` calls (flags `re.MULTILINE`) in a fixed
order.  The four header patterns and the two list patterns are anchored
`^...$`, so with MULTILINE they act line by line (`.` never matches a
newline); the three emphasis patterns are unanchored non-greedy delimited
matches.  Both behaviours are reproduced exactly below. -/

/-- Minimal match for the non-greedy group `(.+?)` followed by the literal
closing delimiter `cl`: returns the shortest non-empty newline-free group
such that `cl` immediately follows, together with the remainder after `cl`.
Returns `none` when the pattern cannot match (as `re` would fail the match
attempt at this position). -/
def findClose (cl : List Char) : List Char → Option (List Char × List Char)
  | [] => none
  | c :: rest =>
    if c == '\n' then none
    else if isPref cl rest then some ([c], rest.drop cl.length)
    else
      match findClose cl rest with
      | some (g, rem) => some (c :: g, rem)
      | none => none

/-- One left-to-right `re.sub` pass for a pattern `op (.+?) cl` with
replacement `pre \1 post`: at each position try to match; on success emit the
replacement and continue after the match, otherwise emit one character and
retry at the next position.  `fuel` bounds the recursion (each step consumes
at least one character, so `fuel = length` suffices). -/
def subDelimGo (op cl pre post : List Char) : Nat → List Char → List Char
  | 0, l => l
  | _ + 1, [] => []
  | n + 1, c :: rest =>
    if isPref op (c :: rest) then
      match findClose cl (List.drop op.length (c :: rest)) with
      | some (g, rem) => pre ++ g ++ post ++ subDelimGo op cl pre post n rem
      | none => c :: subDelimGo op cl pre post n rest
    else c :: subDelimGo op cl pre post n rest

/-- `re.sub` for the delimited emphasis patterns. -/
def subDelim (op cl pre post : List Char) (l : List Char) : List Char :=
  subDelimGo op cl pre post l.length l

/-- One line under a header pattern `^pre(.+)$` with replacement
`cmdOpen \1 }`. -/
def headerLine (pre cmdOpen : List Char) (line : List Char) : List Char :=
  if isPref pre line = true ∧ pre.length < line.length then
    cmdOpen ++ line.drop pre.length ++ [rbrace]
  else line

/-- The replacement head shared by both list-item patterns. -/
def itemCmd : List Char := "\\item ".data

/-- One line under the bullet pattern `^- (.+)$`. -/
def dashLine (line : List Char) : List Char :=
  if isPref ['-', ' '] line = true ∧ 2 < line.length then
    itemCmd ++ line.drop 2
  else line

/-- One line under the numbered pattern `^\d+\. (.+)$`. -/
def numLine (line : List Char) : List Char :=
  let ds := line.takeWhile Char.isDigit
  if ds ≠ [] ∧ isPref ['.', ' '] (line.drop ds.length) = true ∧
      ds.length + 2 < line.length then
    itemCmd ++ line.drop (ds.length + 2)
  else line

/-- Apply a line transformation to every `\n`-separated line, as a
`re.MULTILINE` anchored substitution does. -/
def lineWise (f : List Char → List Char) (l : List Char) : List Char :=
  joinNL ((splitNL l).map f)

/-- Substitution 1: `^# (.+)$` to `\chapter{...}`. -/
def conv1 : List Char → List Char :=
  lineWise (headerLine "# ".data "\\chapter\x7b".data)

/-- Substitution 2: `^## (.+)$` to `\section{...}`. -/
def conv2 : List Char → List Char :=
  lineWise (headerLine "## ".data "\\section\x7b".data)

/-- Substitution 3: `^### (.+)$` to `\subsection{...}`. -/
def conv3 : List Char → List Char :=
  lineWise (headerLine "### ".data "\\subsection\x7b".data)

/-- Substitution 4: `^#### (.+)$` to `\subsubsection{...}`. -/
def conv4 : List Char → List Char :=
  lineWise (headerLine "#### ".data "\\subsubsection\x7b".data)

/-- Substitution 5: bold, `\*\*(.+?)\*\*` to `\textbf{...}`. -/
def conv5 : List Char → List Char :=
  subDelim ['*', '*'] ['*', '*'] "\\textbf\x7b".data [rbrace]

/-- Substitution 6: italic, `\*(.+?)\*` to `\textit{...}`. -/
def conv6 : List Char → List Char :=
  subDelim ['*'] ['*'] "\\textit\x7b".data [rbrace]

/-- Substitution 7: inline code, backquote-delimited, to `\texttt{...}`. -/
def conv7 : List Char → List Char :=
  subDelim [btick] [btick] "\\texttt\x7b".data [rbrace]

/-- Substitution 8: `^- (.+)$` to `\item ...`. -/
def conv8 : List Char → List Char := lineWise dashLine

/-- Substitution 9: `^\d+\. (.+)$` to `\item ...`. -/
def conv9 : List Char → List Char := lineWise numLine

/-- The conversion list, in the order the Python source lists it. -/
def conversions : List (List Char → List Char) :=
  [conv1, conv2, conv3, conv4, conv5, conv6, conv7, conv8, conv9]

/-- Fold a list of substitutions over the input, as the Python `for` loop
over `conversions` does. -/
def applyConvs (fs : List (List Char → List Char)) (s : String) : String :=
  String.mk (fs.foldl (fun l f => f l) s.data)

/-- `MarkdownToLaTeXTool._run`: the nine substitutions in source order. -/
def MarkdownToLaTeXTool_run (markdown_content : String) : String :=
  applyConvs conversions markdown_content

/-- The same substitution set with the bold and italic passes interchanged
(a permutation of `conversions`). -/
def conversionsItalicFirst : List (List Char → List Char) :=
  [conv1, conv2, conv3, conv4, conv6, conv5, conv7, conv8, conv9]

/-! ### Path computations (`pathlib` / `os.path` behaviour used by the tools) -/

/-- Final path component (text after the last slash). -/
def baseNameC (l : List Char) : List Char :=
  (l.reverse.takeWhile (fun c => c != '/')).reverse

/-- `os.path.basename` for POSIX paths. -/
def baseName (p : String) : String := String.mk (baseNameC p.data)

/-- `pathlib.PurePath.suffix`: the final dot-extension of the last component;
empty when the last component has no dot, starts with its only dot, or ends
with the dot. -/
def pySuffix (p : String) : String :=
  let name := baseNameC p.data
  let rev := name.reverse
  if rev.any (fun c => c == '.') then
    let afterDot := rev.takeWhile (fun c => c != '.')
    let i := name.length - 1 - afterDot.length
    if 0 < i ∧ i < name.length - 1 then String.mk ('.' :: afterDot.reverse) else ""
  else ""

/-- Root part of `os.path.splitext` applied to a bare file name: strip the
last dot-extension unless every character before that dot is itself a dot. -/
def splitextRoot (name : String) : String :=
  let l := name.data
  let leadDots := (l.takeWhile (fun c => c == '.')).length
  let rev := l.reverse
  if rev.any (fun c => c == '.') then
    let afterDot := rev.takeWhile (fun c => c != '.')
    let i := l.length - 1 - afterDot.length
    if leadDots < i then String.mk (l.take i) else name
  else name

/-- `os.path.join` for two POSIX components. -/
def osPathJoin (a b : String) : String :=
  if b.data.head? = some '/' then b
  else if a = "" then b
  else if a.data.getLast? = some '/' then a ++ b
  else a ++ "/" ++ b

/-- Split a character list on slashes. -/
def splitSlash : List Char → List (List Char)
  | [] => [[]]
  | c :: rest =>
    if c == '/' then [] :: splitSlash rest
    else
      match splitSlash rest with
      | [] => [[c]]
      | l :: ls => (c :: l) :: ls

/-- `str(pathlib.Path(p))`: drop empty and single-dot components, keep a
leading slash.  (The pathlib special case for a leading double slash is not
modelled.) -/
def normPathC (l : List Char) : List Char :=
  let keep := (splitSlash l).filter (fun c => c ≠ [] ∧ c ≠ ['.'])
  let core := List.intercalate ['/'] keep
  if l.head? = some '/' then '/' :: core
  else if keep = [] then ['.']
  else core

/-- `str(pathlib.Path(d) / f)` for POSIX paths. -/
def pathlibJoin (d f : String) : String :=
  if f.data.head? = some '/' then String.mk (normPathC f.data)
  else String.mk (normPathC (d.data ++ '/' :: f.data))

/-! ### A model of Python JSON values and `json.dumps(..., indent=2)` -/

/-- Values produced by `json.loads`. -/
inductive PyJson where
  | str (s : String)
  | num (n : Int)
  | bool (b : Bool)
  | null
  | obj (members : List (String × PyJson))
  | arr (elems : List PyJson)

/-- Hexadecimal digit (lowercase), as CPython's JSON encoder emits. -/
def hexDigit (n : Nat) : Char :=
  if n < 10 then Char.ofNat (48 + n) else Char.ofNat (87 + n)

/-- A `\uXXXX` escape for a 16-bit code unit. -/
def u16Escape (n : Nat) : List Char :=
  '\\' :: 'u' ::
    [hexDigit (n / 4096 % 16), hexDigit (n / 256 % 16),
     hexDigit (n / 16 % 16), hexDigit (n % 16)]

/-- JSON string-character escaping; with `ensureAscii` every character
outside printable ASCII becomes a `\uXXXX` escape (surrogate pair above the
BMP), as `json.dumps` does by default. -/
def escapeChar (ensureAscii : Bool) (c : Char) : List Char :=
  if c == '"' then ['\\', '"']
  else if c == '\\' then ['\\', '\\']
  else if c == '\n' then ['\\', 'n']
  else if c == '\t' then ['\\', 't']
  else if c == '\r' then ['\\', 'r']
  else if c == '\x08' then ['\\', 'b']
  else if c == '\x0c' then ['\\', 'f']
  else if c.toNat < 32 then u16Escape c.toNat
  else if ensureAscii ∧ 126 < c.toNat then
    if c.toNat < 65536 then u16Escape c.toNat
    else
      let v := c.toNat - 65536
      u16Escape (55296 + v / 1024) ++ u16Escape (56320 + v % 1024)
  else [c]

/-- A quoted JSON string literal. -/
def jsonQuote (ensureAscii : Bool) (s : String) : String :=
  String.mk ('"' :: s.data.foldr (fun c acc => escapeChar ensureAscii c ++ acc) ['"'])

/-- Indentation for nesting level `lvl` under `indent=2`. -/
def indentSp (lvl : Nat) : String := String.mk (List.replicate (2 * lvl) ' ')

mutual

/-- `json.dumps(j, indent=2)` at nesting level `lvl` (with or without
`ensure_ascii`, matching CPython's pretty printer). -/
def dumpJsonD (ensureAscii : Bool) (lvl : Nat) : PyJson → String
  | .str s => jsonQuote ensureAscii s
  | .num n => toString n
  | .bool b => if b then "true" else "false"
  | .null => "null"
  | .obj [] => "\x7b\x7d"
  | .obj (kv :: kvs) =>
    "\x7b\n" ++
      String.intercalate ",\n" (dumpMembersD ensureAscii (lvl + 1) (kv :: kvs)) ++
      "\n" ++ indentSp lvl ++ "\x7d"
  | .arr [] => "[]"
  | .arr (x :: xs) =>
    "[\n" ++ String.intercalate ",\n" (dumpElemsD ensureAscii (lvl + 1) (x :: xs)) ++
      "\n" ++ indentSp lvl ++ "]"

/-- The `"key": value` member lines of an object, each at indent `lvl`. -/
def dumpMembersD (ensureAscii : Bool) (lvl : Nat) : List (String × PyJson) → List String
  | [] => []
  | kv :: rest =>
    (indentSp lvl ++ jsonQuote ensureAscii kv.1 ++ ": " ++ dumpJsonD ensureAscii lvl kv.2)
      :: dumpMembersD ensureAscii lvl rest

/-- The element lines of an array, each at indent `lvl`. -/
def dumpElemsD (ensureAscii : Bool) (lvl : Nat) : List PyJson → List String
  | [] => []
  | v :: rest =>
    (indentSp lvl ++ dumpJsonD ensureAscii lvl v) :: dumpElemsD ensureAscii lvl rest

end

/-- `json.dumps(j, indent=2)`. -/
def dumpJson (ensureAscii : Bool) (j : PyJson) : String :=
  dumpJsonD ensureAscii 0 j

/-! ### Python string helpers used by the answer-key parser -/

/-- Python `str.strip()` whitespace (the ASCII subset; the tools' inputs are
ASCII). -/
def pyIsSpace (c : Char) : Bool :=
  c == ' ' || c == '\t' || c == '\n' || c == '\r' || c == '\x0b' || c == '\x0c'

/-- `str.lstrip()`. -/
def lstripC (l : List Char) : List Char := l.dropWhile pyIsSpace

/-- `str.rstrip()`. -/
def rstripC (l : List Char) : List Char := (l.reverse.dropWhile pyIsSpace).reverse

/-- `str.strip()`. -/
def stripC (l : List Char) : List Char := rstripC (lstripC l)

/-- `line.split(sep, 1)` when `sep` occurs in `line`: the text before the
first occurrence and the text after it. -/
def splitFirstC (sep : Char) : List Char → List Char × List Char
  | [] => ([], [])
  | c :: rest =>
    if c == sep then ([], rest)
    else
      let p := splitFirstC sep rest
      (c :: p.1, p.2)

/-- `str.upper()` (ASCII case fold, as the letter answers need). -/
def pyUpperC (l : List Char) : List Char := l.map Char.toUpper

/-- Ordered insertion into a Python-`dict` model: assigning an existing key
replaces its value in place, a new key is appended. -/
def dictInsert {α : Type} : List (String × α) → String → α → List (String × α)
  | [], k, v => [(k, v)]
  | kv :: rest, k, v =>
    if kv.1 = k then (k, v) :: rest else kv :: dictInsert rest k v

/-- Python `dict` lookup on the same model. -/
def assocLookup {α : Type} : List (String × α) → String → Option α
  | [], _ => none
  | kv :: rest, k => if kv.1 = k then some kv.2 else assocLookup rest k

/-! ### `AnswerKeyParserTool._run` (file_tool.py lines 108-150) -/

/-- The fixed label set accepted by the line parser. -/
def answerLabels : List String := ["A", "B", "C", "D"]

/-- The separators tried, in order, for each line. -/
def answerSeps : List Char := ['.', ',', ':', '\t', ' ']

/-- The inner `for sep in [...]` loop of the line parser: find the first
separator occurring in the line; if the normalized answer after it is a
valid label, record it and stop, otherwise try the next separator.
(`line.split(sep, 1)` always yields two parts when `sep` occurs, so the
source's `len(parts) == 2` test is always true here.) -/
def trySeps : List Char → List (String × String) → List Char → List (String × String)
  | [], answers, _ => answers
  | sep :: more, answers, line =>
    if line.any (fun c => c == sep) then
      let parts := splitFirstC sep line
      let q_num := String.mk (stripC parts.1)
      let answer := String.mk (pyUpperC (stripC parts.2))
      if answer ∈ answerLabels then dictInsert answers q_num answer
      else trySeps more answers line
    else trySeps more answers line

/-- The outer `for line in content.strip().split('\n')` loop. -/
def parseLines : List (List Char) → List (String × String) → List (String × String)
  | [], answers => answers
  | line :: rest, answers =>
    let l := stripC line
    if l = [] then parseLines rest answers
    else parseLines rest (trySeps answerSeps answers l)

/-- The non-JSON (line-by-line) branch of `AnswerKeyParserTool._run`,
returning the `answers` dict it builds. -/
def answersFromLines (content : String) : List (String × String) :=
  parseLines (splitNL (stripC content.data)) []

/-- Quoted Python `repr` of a string (single-quoted with the common
escapes; the quote-preference subtlety of CPython's repr is not modelled). -/
def reprQuote (s : String) : String :=
  String.mk ('\x27' :: s.data.foldr (fun c acc =>
    (if c == '\\' then ['\\', '\\']
     else if c == '\x27' then ['\\', '\x27']
     else if c == '\n' then ['\\', 'n']
     else if c == '\r' then ['\\', 'r']
     else if c == '\t' then ['\\', 't']
     else if c.toNat < 32 ∨ c.toNat == 127 then
       ['\\', 'x', hexDigit (c.toNat / 16 % 16), hexDigit (c.toNat % 16)]
     else [c]) ++ acc) ['\x27'])

mutual

/-- Python `repr` of a JSON value. -/
def pyReprD : PyJson → String
  | .str s => reprQuote s
  | .num n => toString n
  | .bool b => if b then "True" else "False"
  | .null => "None"
  | .obj [] => "\x7b\x7d"
  | .obj (kv :: kvs) =>
    "\x7b" ++ String.intercalate ", " (pyReprMembersD (kv :: kvs)) ++ "\x7d"
  | .arr xs => "[" ++ String.intercalate ", " (pyReprElemsD xs) ++ "]"

/-- `repr` of the `key: value` members of a dict. -/
def pyReprMembersD : List (String × PyJson) → List String
  | [] => []
  | kv :: rest => (reprQuote kv.1 ++ ": " ++ pyReprD kv.2) :: pyReprMembersD rest

/-- `repr` of the elements of a list. -/
def pyReprElemsD : List PyJson → List String
  | [] => []
  | v :: rest => pyReprD v :: pyReprElemsD rest

end

/-- Python `str()` applied to a JSON value (`str(item['question'])` in the
source): a string is returned as-is, scalars print Python-style, containers
fall back to `repr`. -/
def pyStr : PyJson → String
  | .str s => s
  | .num n => toString n
  | .bool b => if b then "True" else "False"
  | .null => "None"
  | j => pyReprD j

/-- The list-of-records part of the JSON branch: items that are dicts with
both a `question` and an `answer` field contribute
`answers[str(item['question'])] = item['answer']`, unvalidated. -/
def answersFromList : List PyJson → List (String × PyJson) → List (String × PyJson)
  | [], acc => acc
  | item :: rest, acc =>
    match item with
    | .obj kvs =>
      match assocLookup kvs "question", assocLookup kvs "answer" with
      | some q, some a => answersFromList rest (dictInsert acc (pyStr q) a)
      | _, _ => answersFromList rest acc
    | _ => answersFromList rest acc

/-- The JSON branch of `AnswerKeyParserTool._run`: a dict is taken as the
answers mapping verbatim; a list is scanned for question/answer records;
anything else leaves the mapping empty. -/
def answersFromJson : PyJson → List (String × PyJson)
  | .obj kvs => kvs
  | .arr items => answersFromList items []
  | _ => []

/-- External-interaction outcomes for the answer-key parser: whether the
path exists, what reading the file yields (content, or the message of a
raised exception), and what `json.loads` yields on given content. -/
structure ParserEnv where
  pathExists : Bool
  readResult : Except String String
  jsonLoads : String → Except String PyJson

/-- `AnswerKeyParserTool._run`.  The existence check precedes the `try`
block; every exception inside it is caught and rendered as an error string;
the successful result is `json.dumps(answers, indent=2)`. -/
def AnswerKeyParserTool_run (env : ParserEnv) (answer_key_path : String) : String :=
  if env.pathExists = false then "Error: Answer key not found at " ++ answer_key_path
  else
    match env.readResult with
    | .error e => "Error parsing answer key: " ++ e
    | .ok content =>
      if pySuffix answer_key_path = ".json" then
        match env.jsonLoads content with
        | .error e => "Error parsing answer key: " ++ e
        | .ok data => dumpJson true (PyJson.obj (answersFromJson data))
      else
        dumpJson true (PyJson.obj
          ((answersFromLines content).map (fun p => (p.1, PyJson.str p.2))))

/-! ### `FileReaderTool._run` (file_tool.py lines 25-41) -/

/-- External-interaction outcomes for the file reader. -/
structure ReaderEnv where
  pathExists : Bool
  readResult : Except String String
  jsonLoads : String → Except String PyJson

/-- `FileReaderTool._run`: existence check outside the `try`; `.json`
content is re-serialized with `json.dumps(..., indent=2, ensure_ascii=False)`;
every exception is caught and rendered. -/
def FileReaderTool_run (env : ReaderEnv) (file_path : String) : String :=
  if env.pathExists = false then "Error: File not found at " ++ file_path
  else
    match env.readResult with
    | .error e => "Error reading file: " ++ e
    | .ok content =>
      if pySuffix file_path = ".json" then
        match env.jsonLoads content with
        | .error e => "Error reading file: " ++ e
        | .ok data => dumpJson false data
      else content

/-! ### `FileWriterTool._run` (file_tool.py lines 59-90) -/

/-- The "smart path handling" of the writer: with a non-trivial directory,
a filename already carrying that directory, an `output/`, `input/` or `./`
prefix is used as-is, otherwise directory and filename are joined with
`pathlib`. -/
def fileWriter_path (directory : Option String) (filename : String) : String :=
  match directory with
  | some d =>
    if d ≠ "" ∧ d ≠ "./" then
      if isPref d.data filename.data then filename
      else if isPref "output/".data filename.data ∨ isPref "input/".data filename.data ∨
          isPref "./".data filename.data then filename
      else pathlibJoin d filename
    else filename
  | none => filename

/-- `FileWriterTool._run` against a file system modelled as a mapping from
normalized paths to contents.  `problem` is the message of an exception
raised by the file system (mkdir/open/write), caught by the tool's blanket
`except`; the tool returns its message and the resulting file system. -/
def FileWriterTool_run (fs : List (String × String)) (problem : Option String)
    (filename : String) (content : String) (directory : Option String)
    (overwrite : Bool) : String × List (String × String) :=
  match problem with
  | some e => ("An error occurred while writing to the file: " ++ e, fs)
  | none =>
    let file_path := fileWriter_path directory filename
    let key := String.mk (normPathC file_path.data)
    if (assocLookup fs key).isSome ∧ overwrite = false then
      ("File already exists at " ++ file_path ++ ". Set overwrite=true to replace it.", fs)
    else
      ("Successfully wrote " ++ toString content.length ++ " characters to " ++ file_path,
        dictInsert fs key content)

/-! ### `OCRTool._run` (ocr_tool.py lines 26-102) -/

/-- The mime-type table of the OCR tool, keyed by the lowercased suffix. -/
def mimeTypeFor (file_ext : String) : String :=
  if file_ext = ".pdf" then "application/pdf"
  else if file_ext = ".png" then "image/png"
  else if file_ext = ".jpg" ∨ file_ext = ".jpeg" then "image/jpeg"
  else if file_ext = ".webp" then "image/webp"
  else if file_ext = ".gif" then "image/gif"
  else "application/octet-stream"

/-- `str.lower()` (ASCII). -/
def lowerStr (s : String) : String := String.mk (s.data.map Char.toLower)

/-- External-interaction outcomes for the OCR tool: whether
`from google import genai` succeeds (client construction performs no network
request; the first request is `generate_content`), whether the input file
exists, what `read_bytes` yields, and what the Gemini call yields
(`response.text`, or the message of a raised exception). -/
structure OcrEnv where
  genaiInstalled : Bool
  genaiImportMsg : String
  fileExists : Bool
  readBytesResult : Except String Unit
  geminiResult : Except String String

/-- `OCRTool._run`.  Returns the tool's result string together with the
Gemini request made, if any: `some mime` records a `generate_content` call
with that mime type, `none` means the external AI service was never
called. -/
def OCRTool_run (env : OcrEnv) (file_path : String) : String × Option String :=
  if env.genaiInstalled = false then
    ("[OCR Tool] Google GenAI not installed. Run: pip install google-genai. Error: " ++
      env.genaiImportMsg, none)
  else if env.fileExists = false then
    ("[OCR Tool] File not found: " ++ file_path, none)
  else
    match env.readBytesResult with
    | .error e => ("[OCR Tool] Error processing file with Gemini: " ++ e, none)
    | .ok _ =>
      let mime := mimeTypeFor (lowerStr (pySuffix file_path))
      match env.geminiResult with
      | .ok responseText => (responseText, some mime)
      | .error e => ("[OCR Tool] Error processing file with Gemini: " ++ e, some mime)

/-! ### `LaTeXCompilerTool._run` (latex_tool.py lines 27-60) -/

/-- One `subprocess.run` invocation: its argument vector and the `timeout=`
keyword it was given (in seconds). -/
structure SubprocCall where
  args : List String
  timeoutSeconds : Nat
deriving DecidableEq

/-- Outcome of the `subprocess.run` invocation.  `created` lists the files
the external `pdflatex` process wrote before finishing or being killed on
timeout; when the executable is missing (`FileNotFoundError`) the process
never started, so nothing is created. -/
inductive SubprocOutcome where
  | completed (returncode : Int) (stdout stderr : String) (created : List String)
  | timedOut (created : List String)
  | execMissing
  | raised (msg : String)

/-- External-interaction outcomes for the compiler tool: whether
`os.makedirs` raises, and how the subprocess invocation ends. -/
structure LatexEnv where
  makedirsFail : Option String
  outcome : SubprocOutcome

/-- `LaTeXCompilerTool._run`.  Returns the tool's result string, the list of
subprocess invocations attempted, and the files created on disk by the
invocation. -/
def LaTeXCompilerTool_run (env : LatexEnv) (tex_file_path : String)
    (output_dir : String) : String × List SubprocCall × List String :=
  match env.makedirsFail with
  | some e => ("[LaTeX Compiler] Error: " ++ e, [], [])
  | none =>
    let call : SubprocCall :=
      ⟨["pdflatex", "-output-directory", output_dir, tex_file_path], 120⟩
    match env.outcome with
    | .completed rc _ stderr created =>
      if rc = 0 then
        let pdf_name := splitextRoot (baseName tex_file_path) ++ ".pdf"
        ("Successfully compiled LaTeX to PDF: " ++ osPathJoin output_dir pdf_name,
          [call], created)
      else ("LaTeX compilation failed: " ++ stderr, [call], created)
    | .timedOut created =>
      ("[LaTeX Compiler] Compilation timed out after 120 seconds.", [call], created)
    | .execMissing =>
      ("[LaTeX Compiler] pdflatex not found. Please install a LaTeX distribution.",
        [call], [])
    | .raised e => ("[LaTeX Compiler] Error: " ++ e, [call], [])

/-! ### `run_batch` (main.py lines 126-194) -/

/-- One chapter entry of the batch configuration. -/
structure Chapter where
  image_path : String := ""
  answer_key_file : String := ""
  chapter_number : Nat := 0
  chapter_name : String := ""
  subject : String := ""
deriving DecidableEq

/-- One per-job entry appended to `results` by the batch loop. -/
structure BatchRecord where
  chapter : Chapter
  result : Option String
  status : String
  error : Option String
deriving DecidableEq

/-- The record the loop body appends for one chapter, given how
`crew().kickoff(...)` ended for it (result value, or the message of a
raised exception). -/
def mkBatchRecord (ch : Chapter) : Except String String → BatchRecord
  | .ok r => ⟨ch, some r, "success", none⟩
  | .error e => ⟨ch, none, "error", some e⟩

/-- The `for idx, chapter in enumerate(chapters, 1)` loop: the `try/except`
around each kickoff records a per-job success or error and always continues
with the next chapter. -/
def processChapters (kickoff : Chapter → Except String String) :
    List Chapter → List BatchRecord
  | [] => []
  | ch :: rest => mkBatchRecord ch (kickoff ch) :: processChapters kickoff rest

/-- The final tally `run_batch` prints, and the records it returns. -/
structure BatchOutcome where
  records : List BatchRecord
  successful : Nat
  failed : Nat
deriving DecidableEq

/-- `run_batch`, from the point where the `chapters` list has been read from
the configuration: process every chapter, then print
`successful/total` and `(total - successful)/total`. -/
def run_batch (kickoff : Chapter → Except String String)
    (chapters : List Chapter) : BatchOutcome :=
  let results := processChapters kickoff chapters
  let successful := (results.filter (fun r => r.status == "success")).length
  ⟨results, successful, chapters.length - successful⟩

/-! ### Helper lemmas: prefix tests and substitution passes -/

theorem isPref_append_self (xs ys : List Char) : isPref xs (xs ++ ys) = true := by
  induction xs with
  | nil => rfl
  | cons a as ih => simp [isPref, ih]

theorem isPref_head_false {a b : Char} (h : a ≠ b) (as bs : List Char) :
    isPref (a :: as) (b :: bs) = false := by
  simp [isPref]
  intro hab
  exact absurd hab h

theorem isPref_nil_false (a : Char) (as : List Char) : isPref (a :: as) [] = false := rfl

theorem subDelimGo_nil (op cl pre post : List Char) (n : Nat) :
    subDelimGo op cl pre post n [] = [] := by
  cases n <;> rfl

theorem subDelimGo_inert (o : Char) (os cl pre post : List Char) :
    ∀ (n : Nat) (l : List Char), (∀ c ∈ l, c ≠ o) →
      subDelimGo (o :: os) cl pre post n l = l := by
  intro n
  induction n with
  | zero => intro l _; rfl
  | succ n ih =>
    intro l hl
    cases l with
    | nil => rfl
    | cons c rest =>
      have hco : c ≠ o := hl c (List.mem_cons_self c rest)
      have hp : isPref (o :: os) (c :: rest) = false :=
        isPref_head_false (fun h => hco h.symm) os rest
      simp only [subDelimGo, hp, Bool.false_eq_true, if_false]
      rw [ih rest (fun c hc => hl c (List.mem_cons_of_mem _ hc))]

theorem subDelim_inert (o : Char) (os cl pre post : List Char) (l : List Char)
    (hl : ∀ c ∈ l, c ≠ o) : subDelim (o :: os) cl pre post l = l :=
  subDelimGo_inert o os cl pre post l.length l hl

theorem subDelimGo_skip (o : Char) (os cl pre post : List Char) :
    ∀ (zs : List Char) (n : Nat) (suffix : List Char), (∀ c ∈ zs, c ≠ o) →
      subDelimGo (o :: os) cl pre post (zs.length + n) (zs ++ suffix) =
        zs ++ subDelimGo (o :: os) cl pre post n suffix := by
  intro zs
  induction zs with
  | nil => intro n suffix _; simp
  | cons z zs ih =>
    intro n suffix hz
    have hzo : z ≠ o := hz z (List.mem_cons_self z zs)
    have hp : isPref (o :: os) (z :: (zs ++ suffix)) = false :=
      isPref_head_false (fun h => hzo h.symm) os (zs ++ suffix)
    have hstep : subDelimGo (o :: os) cl pre post (zs.length + n + 1) (z :: (zs ++ suffix)) =
        z :: subDelimGo (o :: os) cl pre post (zs.length + n) (zs ++ suffix) := by
      simp only [subDelimGo, hp, Bool.false_eq_true, if_false]
    rw [List.cons_append, List.length_cons, Nat.add_right_comm, hstep,
      ih n suffix (fun c hc => hz c (List.mem_cons_of_mem _ hc)), List.cons_append]

theorem findClose_cons_close (cl : List Char) (c : Char) (rest : List Char)
    (hn : (c == '\n') = false) (hp : isPref cl rest = true) :
    findClose cl (c :: rest) = some ([c], rest.drop cl.length) := by
  simp only [findClose, hn, Bool.false_eq_true, if_false, hp, if_true]

theorem findClose_cons_step (cl : List Char) (c : Char) (rest : List Char)
    (hn : (c == '\n') = false) (hp : isPref cl rest = false) :
    findClose cl (c :: rest) =
      match findClose cl rest with
      | some (g, rem) => some (c :: g, rem)
      | none => none := by
  simp only [findClose, hn, Bool.false_eq_true, if_false, hp]

theorem findClose_self (d : Char) (es : List Char) :
    ∀ (T rest : List Char), T ≠ [] → (∀ c ∈ T, c ≠ '\n' ∧ c ≠ d) →
      findClose (d :: es) (T ++ ((d :: es) ++ rest)) = some (T, rest) := by
  intro T
  induction T with
  | nil => intro rest h _; exact absurd rfl h
  | cons t T ih =>
    intro rest _ hc
    have ht := hc t (List.mem_cons_self t T)
    have htn : (t == '\n') = false := beq_eq_false_iff_ne.mpr ht.1
    rw [List.cons_append]
    cases T with
    | nil =>
      rw [List.nil_append]
      rw [findClose_cons_close (d :: es) t ((d :: es) ++ rest) htn
        (isPref_append_self (d :: es) rest)]
      rw [List.drop_left]
    | cons u T2 =>
      have hu := hc u (List.mem_cons_of_mem _ (List.mem_cons_self u T2))
      have hp : isPref (d :: es) ((u :: T2) ++ ((d :: es) ++ rest)) = false := by
        rw [List.cons_append]
        exact isPref_head_false (fun h => hu.2 h.symm) es _
      have hrec := ih rest (by simp) (fun c hcc => hc c (List.mem_cons_of_mem _ hcc))
      rw [findClose_cons_step (d :: es) t ((u :: T2) ++ ((d :: es) ++ rest)) htn hp, hrec]

theorem subDelim_exact (o d : Char) (os es pre post : List Char)
    (T : List Char) (hT : T ≠ []) (hc : ∀ c ∈ T, c ≠ '\n' ∧ c ≠ d) :
    subDelim (o :: os) (d :: es) pre post ((o :: os) ++ (T ++ (d :: es))) =
      pre ++ T ++ post := by
  have hfc : findClose (d :: es) (T ++ (d :: es)) = some (T, []) := by
    have h := findClose_self d es T [] hT hc
    rwa [List.append_nil] at h
  have hpref : isPref (o :: os) (o :: (os ++ (T ++ (d :: es)))) = true := by
    have h := isPref_append_self (o :: os) (T ++ (d :: es))
    rwa [List.cons_append] at h
  have hdrop : List.drop (o :: os).length (o :: (os ++ (T ++ (d :: es)))) =
      T ++ (d :: es) := by
    have h := List.drop_left (o :: os) (T ++ (d :: es))
    rwa [List.cons_append] at h
  show subDelimGo (o :: os) (d :: es) pre post ((o :: os) ++ (T ++ (d :: es))).length
      ((o :: os) ++ (T ++ (d :: es))) = pre ++ T ++ post
  rw [List.cons_append, List.length_cons]
  simp only [subDelimGo, hpref, if_true, hdrop, hfc, subDelimGo_nil, List.append_nil]

/-! ### Helper lemmas: line-anchored substitutions -/

theorem splitNL_single : ∀ l : List Char, (∀ c ∈ l, c ≠ '\n') → splitNL l = [l] := by
  intro l
  induction l with
  | nil => intro _; rfl
  | cons c rest ih =>
    intro h
    have hc : (c == '\n') = false :=
      beq_eq_false_iff_ne.mpr (h c (List.mem_cons_self c rest))
    simp only [splitNL, hc, Bool.false_eq_true, if_false]
    rw [ih (fun x hx => h x (List.mem_cons_of_mem _ hx))]

theorem joinNL_single (l : List Char) : joinNL [l] = l := by
  simp [joinNL, List.intercalate]

theorem lineWise_single (f : List Char → List Char) (l : List Char)
    (h : ∀ c ∈ l, c ≠ '\n') : lineWise f l = f l := by
  unfold lineWise
  rw [splitNL_single l h]
  show joinNL [f l] = f l
  exact joinNL_single (f l)

theorem headerLine_pos (pre cmdOpen T : List Char) (hT : T ≠ []) :
    headerLine pre cmdOpen (pre ++ T) = cmdOpen ++ T ++ [rbrace] := by
  have h1 : isPref pre (pre ++ T) = true := isPref_append_self pre T
  have h2 : pre.length < (pre ++ T).length := by
    rw [List.length_append]
    have h3 : 0 < T.length := List.length_pos.mpr hT
    omega
  unfold headerLine
  rw [if_pos ⟨h1, h2⟩, List.drop_left]

theorem headerLine_inert (pre cmdOpen line : List Char)
    (h : isPref pre line = false) : headerLine pre cmdOpen line = line := by
  have hneg : ¬ (isPref pre line = true ∧ pre.length < line.length) := by
    intro hcon
    rw [h] at hcon
    exact Bool.false_ne_true hcon.1
  unfold headerLine
  rw [if_neg hneg]

theorem dashLine_pos (T : List Char) (hT : T ≠ []) :
    dashLine ('-' :: ' ' :: T) = itemCmd ++ T := by
  have h1 : isPref ['-', ' '] ('-' :: ' ' :: T) = true := by simp [isPref]
  have h2 : 2 < ('-' :: ' ' :: T).length := by
    simp only [List.length_cons]
    have h3 : 0 < T.length := List.length_pos.mpr hT
    omega
  unfold dashLine
  rw [if_pos ⟨h1, h2⟩]
  rfl

theorem dashLine_inert (line : List Char) (h : isPref ['-', ' '] line = false) :
    dashLine line = line := by
  have hneg : ¬ (isPref ['-', ' '] line = true ∧ 2 < line.length) := by
    intro hcon
    rw [h] at hcon
    exact Bool.false_ne_true hcon.1
  unfold dashLine
  rw [if_neg hneg]

theorem takeWhile_append_stop {p : Char → Bool} :
    ∀ (ds : List Char) (x : Char) (r : List Char), (∀ c ∈ ds, p c = true) → p x = false →
      (ds ++ (x :: r)).takeWhile p = ds := by
  intro ds
  induction ds with
  | nil => intro x r _ hx; simp [List.takeWhile_cons, hx]
  | cons a as ih =>
    intro x r h hx
    have ha : p a = true := h a (List.mem_cons_self a as)
    rw [List.cons_append]
    simp only [List.takeWhile_cons, ha, if_true]
    rw [ih x r (fun c hc => h c (List.mem_cons_of_mem _ hc)) hx]

theorem numLine_pos (ds T : List Char) (hds : ds ≠ []) (hT : T ≠ [])
    (hd : ∀ c ∈ ds, c.isDigit = true) :
    numLine (ds ++ ('.' :: ' ' :: T)) = itemCmd ++ T := by
  have htw : (ds ++ ('.' :: ' ' :: T)).takeWhile Char.isDigit = ds :=
    takeWhile_append_stop ds '.' (' ' :: T) hd (by decide)
  have hdrop1 : (ds ++ ('.' :: ' ' :: T)).drop ds.length = '.' :: ' ' :: T :=
    List.drop_left ds ('.' :: ' ' :: T)
  have hdrop2 : (ds ++ ('.' :: ' ' :: T)).drop (ds.length + 2) = T := by
    have h1 : ds ++ ('.' :: ' ' :: T) = (ds ++ ['.', ' ']) ++ T := by simp
    have h3 : ds.length + 2 = (ds ++ ['.', ' ']).length := by simp
    rw [h1, h3, List.drop_left]
  have hlen : ds.length + 2 < (ds ++ ('.' :: ' ' :: T)).length := by
    rw [List.length_append]
    have h3 : 0 < T.length := List.length_pos.mpr hT
    simp only [List.length_cons]
    omega
  unfold numLine
  simp only [htw, hdrop1, hdrop2]
  rw [if_pos ⟨hds, by simp [isPref], hlen⟩]

theorem numLine_inert (c : Char) (rest : List Char) (hc : c.isDigit = false) :
    numLine (c :: rest) = c :: rest := by
  unfold numLine
  simp [List.takeWhile_cons, hc]

/-! ### Helper lemmas: character classes -/

theorem plain_ne (x : Char) (hx : x.isAlphanum = false) (hxs : x ≠ ' ') :
    ∀ c : Char, c.isAlphanum = true ∨ c = ' ' → c ≠ x := by
  intro c h heq
  subst heq
  rcases h with h | h
  · rw [hx] at h; exact Bool.false_ne_true h
  · exact hxs h

theorem digit_ne (x : Char) (hx : x.isDigit = false) :
    ∀ c : Char, c.isDigit = true → c ≠ x := by
  intro c h heq
  subst heq
  rw [hx] at h
  exact Bool.false_ne_true h

theorem append_facts {P : Char → Prop} (a b : List Char)
    (ha : ∀ c ∈ a, P c) (hb : ∀ c ∈ b, P c) : ∀ c ∈ a ++ b, P c := by
  intro c hc
  rcases List.mem_append.mp hc with h | h
  · exact ha c h
  · exact hb c h

theorem plain_facts (T : List Char) (hT : ∀ c ∈ T, c.isAlphanum = true ∨ c = ' ') :
    (∀ c ∈ T, c ≠ '\n') ∧ (∀ c ∈ T, c ≠ '*') ∧ (∀ c ∈ T, c ≠ btick) ∧
      (∀ c ∈ T, c ≠ '#') ∧ (∀ c ∈ T, c ≠ '-') ∧ (∀ c ∈ T, c ≠ '\\') := by
  refine ⟨?_, ?_, ?_, ?_, ?_, ?_⟩ <;>
    exact fun c hc => plain_ne _ (by decide) (by decide) c (hT c hc)

/-! ### Helper lemmas: behaviour of the nine conversion passes on single lines -/

theorem isPref_cons_same (a : Char) (as bs : List Char) :
    isPref (a :: as) (a :: bs) = isPref as bs := by
  simp [isPref]

theorem subDelimGo_step_nomatch (op cl pre post : List Char) (n : Nat) (c : Char)
    (rest : List Char) (hp : isPref op (c :: rest) = false) :
    subDelimGo op cl pre post (n + 1) (c :: rest) =
      c :: subDelimGo op cl pre post n rest := by
  simp only [subDelimGo, hp, Bool.false_eq_true, if_false]

theorem conv5_inert (l : List Char) (h : ∀ c ∈ l, c ≠ '*') : conv5 l = l :=
  subDelim_inert '*' ['*'] ['*', '*'] "\\textbf\x7b".data [rbrace] l h

theorem conv6_inert (l : List Char) (h : ∀ c ∈ l, c ≠ '*') : conv6 l = l :=
  subDelim_inert '*' [] ['*'] "\\textit\x7b".data [rbrace] l h

theorem conv7_inert (l : List Char) (h : ∀ c ∈ l, c ≠ btick) : conv7 l = l :=
  subDelim_inert btick [] [btick] "\\texttt\x7b".data [rbrace] l h

theorem convs_headers_inert (x : Char) (rest : List Char) (hxh : x ≠ '#')
    (hnl : ∀ c ∈ x :: rest, c ≠ '\n') :
    conv1 (x :: rest) = x :: rest ∧ conv2 (x :: rest) = x :: rest ∧
      conv3 (x :: rest) = x :: rest ∧ conv4 (x :: rest) = x :: rest := by
  have hne : ('#' : Char) ≠ x := Ne.symm hxh
  refine ⟨?_, ?_, ?_, ?_⟩ <;>
  · first
    | (show conv1 (x :: rest) = x :: rest
       unfold conv1
       rw [lineWise_single _ _ hnl]
       exact headerLine_inert _ _ _ (isPref_head_false hne _ _))
    | (show conv2 (x :: rest) = x :: rest
       unfold conv2
       rw [lineWise_single _ _ hnl]
       exact headerLine_inert _ _ _ (isPref_head_false hne _ _))
    | (show conv3 (x :: rest) = x :: rest
       unfold conv3
       rw [lineWise_single _ _ hnl]
       exact headerLine_inert _ _ _ (isPref_head_false hne _ _))
    | (show conv4 (x :: rest) = x :: rest
       unfold conv4
       rw [lineWise_single _ _ hnl]
       exact headerLine_inert _ _ _ (isPref_head_false hne _ _))

theorem convs_lists_inert (x : Char) (rest : List Char) (hxd : x ≠ '-')
    (hxg : x.isDigit = false) (hnl : ∀ c ∈ x :: rest, c ≠ '\n') :
    conv8 (x :: rest) = x :: rest ∧ conv9 (x :: rest) = x :: rest := by
  constructor
  · unfold conv8
    rw [lineWise_single _ _ hnl]
    exact dashLine_inert _ (isPref_head_false (Ne.symm hxd) _ _)
  · unfold conv9
    rw [lineWise_single _ _ hnl]
    exact numLine_inert x rest hxg

theorem forall_shape {P : Char → Prop} (ct T tail : List Char)
    (hc : ∀ c ∈ ct, P c) (hT : ∀ c ∈ T, P c) (ht : ∀ c ∈ tail, P c) (hb : P '\\') :
    ∀ c ∈ '\\' :: ((ct ++ T) ++ tail), P c := by
  intro c hcm
  rcases List.mem_cons.mp hcm with rfl | h2
  · exact hb
  · rcases List.mem_append.mp h2 with h3 | h3
    · rcases List.mem_append.mp h3 with h4 | h4
      · exact hc c h4
      · exact hT c h4
    · exact ht c h3

theorem forall_cons2 {P : Char → Prop} (a b : Char) (l : List Char)
    (ha : P a) (hb : P b) (hl : ∀ c ∈ l, P c) : ∀ c ∈ a :: b :: l, P c := by
  intro c hc
  rcases List.mem_cons.mp hc with rfl | h2
  · exact ha
  · rcases List.mem_cons.mp h2 with rfl | h3
    · exact hb
    · exact hl c h3

theorem forall_cons1 {P : Char → Prop} (a : Char) (l : List Char)
    (ha : P a) (hl : ∀ c ∈ l, P c) : ∀ c ∈ a :: l, P c := by
  intro c hc
  rcases List.mem_cons.mp hc with rfl | h
  · exact ha
  · exact hl c h

theorem conv5_italic_skip (T : List Char) (hT : T ≠ [])
    (hstar : ∀ c ∈ T, c ≠ '*') :
    conv5 ('*' :: (T ++ ['*'])) = '*' :: (T ++ ['*']) := by
  obtain ⟨u, T2, rfl⟩ : ∃ u T2, T = u :: T2 := by
    cases T with
    | nil => exact absurd rfl hT
    | cons u T2 => exact ⟨u, T2, rfl⟩
  have hu : u ≠ '*' := hstar u (List.mem_cons_self u T2)
  have hp : isPref ['*', '*'] ('*' :: ((u :: T2) ++ ['*'])) = false := by
    rw [List.cons_append, isPref_cons_same]
    exact isPref_head_false (Ne.symm hu) _ _
  show subDelimGo ['*', '*'] ['*', '*'] "\\textbf\x7b".data [rbrace]
      ('*' :: ((u :: T2) ++ ['*'])).length ('*' :: ((u :: T2) ++ ['*'])) =
      '*' :: ((u :: T2) ++ ['*'])
  rw [List.length_cons, subDelimGo_step_nomatch _ _ _ _ _ _ _ hp]
  have hlen : ((u :: T2) ++ ['*']).length = (u :: T2).length + 1 := by simp
  have hone : subDelimGo ['*', '*'] ['*', '*'] "\\textbf\x7b".data [rbrace] 1 ['*'] =
      ['*'] := rfl
  rw [hlen, subDelimGo_skip '*' ['*'] ['*', '*'] _ _ (u :: T2) 1 ['*'] hstar, hone]

/-! ### The conversion pipeline on each plain-text pattern instance -/

theorem mdCaseChapter (T : List Char) (hT : T ≠ [])
    (hTc : ∀ c ∈ T, c.isAlphanum = true ∨ c = ' ') :
    conversions.foldl (fun l f => f l) ('#' :: ' ' :: T) =
      "\\chapter\x7b".data ++ T ++ [rbrace] := by
  obtain ⟨hnl, hstar, htick, _, _, _⟩ := plain_facts T hTc
  have hline : ∀ c ∈ '#' :: ' ' :: T, c ≠ '\n' :=
    forall_cons2 '#' ' ' T (by decide) (by decide) hnl
  have e1 : conv1 ('#' :: ' ' :: T) = "\\chapter\x7b".data ++ T ++ [rbrace] := by
    unfold conv1
    rw [lineWise_single _ _ hline]
    exact headerLine_pos "# ".data "\\chapter\x7b".data T hT
  have hsh : "\\chapter\x7b".data ++ T ++ [rbrace] =
      '\\' :: (("chapter\x7b".data ++ T) ++ [rbrace]) := rfl
  have hRnl : ∀ c ∈ '\\' :: (("chapter\x7b".data ++ T) ++ [rbrace]), c ≠ '\n' :=
    forall_shape _ _ _ (by decide) hnl (by decide) (by decide)
  have hRstar : ∀ c ∈ '\\' :: (("chapter\x7b".data ++ T) ++ [rbrace]), c ≠ '*' :=
    forall_shape _ _ _ (by decide) hstar (by decide) (by decide)
  have hRtick : ∀ c ∈ '\\' :: (("chapter\x7b".data ++ T) ++ [rbrace]), c ≠ btick :=
    forall_shape _ _ _ (by decide) htick (by decide) (by decide)
  have hhd := convs_headers_inert '\\' (("chapter\x7b".data ++ T) ++ [rbrace])
    (by decide) hRnl
  have hls := convs_lists_inert '\\' (("chapter\x7b".data ++ T) ++ [rbrace])
    (by decide) (by decide) hRnl
  simp only [conversions, List.foldl]
  rw [e1, hsh, hhd.2.1, hhd.2.2.1, hhd.2.2.2, conv5_inert _ hRstar, conv6_inert _ hRstar,
    conv7_inert _ hRtick, hls.1, hls.2]

theorem mdCaseSection (T : List Char) (hT : T ≠ [])
    (hTc : ∀ c ∈ T, c.isAlphanum = true ∨ c = ' ') :
    conversions.foldl (fun l f => f l) ('#' :: '#' :: ' ' :: T) =
      "\\section\x7b".data ++ T ++ [rbrace] := by
  obtain ⟨hnl, hstar, htick, _, _, _⟩ := plain_facts T hTc
  have hline : ∀ c ∈ '#' :: '#' :: ' ' :: T, c ≠ '\n' :=
    forall_cons1 '#' _ (by decide) (forall_cons2 '#' ' ' T (by decide) (by decide) hnl)
  have e1 : conv1 ('#' :: '#' :: ' ' :: T) = '#' :: '#' :: ' ' :: T := by
    unfold conv1
    rw [lineWise_single _ _ hline]
    apply headerLine_inert
    rw [show ("# ".data : List Char) = '#' :: [' '] from rfl, isPref_cons_same]
    exact isPref_head_false (by decide) _ _
  have e2 : conv2 ('#' :: '#' :: ' ' :: T) = "\\section\x7b".data ++ T ++ [rbrace] := by
    unfold conv2
    rw [lineWise_single _ _ hline]
    exact headerLine_pos "## ".data "\\section\x7b".data T hT
  have hsh : "\\section\x7b".data ++ T ++ [rbrace] =
      '\\' :: (("section\x7b".data ++ T) ++ [rbrace]) := rfl
  have hRnl : ∀ c ∈ '\\' :: (("section\x7b".data ++ T) ++ [rbrace]), c ≠ '\n' :=
    forall_shape _ _ _ (by decide) hnl (by decide) (by decide)
  have hRstar : ∀ c ∈ '\\' :: (("section\x7b".data ++ T) ++ [rbrace]), c ≠ '*' :=
    forall_shape _ _ _ (by decide) hstar (by decide) (by decide)
  have hRtick : ∀ c ∈ '\\' :: (("section\x7b".data ++ T) ++ [rbrace]), c ≠ btick :=
    forall_shape _ _ _ (by decide) htick (by decide) (by decide)
  have hhd := convs_headers_inert '\\' (("section\x7b".data ++ T) ++ [rbrace])
    (by decide) hRnl
  have hls := convs_lists_inert '\\' (("section\x7b".data ++ T) ++ [rbrace])
    (by decide) (by decide) hRnl
  simp only [conversions, List.foldl]
  rw [e1, e2, hsh, hhd.2.2.1, hhd.2.2.2, conv5_inert _ hRstar, conv6_inert _ hRstar,
    conv7_inert _ hRtick, hls.1, hls.2]

theorem mdCaseSubsection (T : List Char) (hT : T ≠ [])
    (hTc : ∀ c ∈ T, c.isAlphanum = true ∨ c = ' ') :
    conversions.foldl (fun l f => f l) ('#' :: '#' :: '#' :: ' ' :: T) =
      "\\subsection\x7b".data ++ T ++ [rbrace] := by
  obtain ⟨hnl, hstar, htick, _, _, _⟩ := plain_facts T hTc
  have hline : ∀ c ∈ '#' :: '#' :: '#' :: ' ' :: T, c ≠ '\n' :=
    forall_cons1 '#' _ (by decide)
      (forall_cons1 '#' _ (by decide) (forall_cons2 '#' ' ' T (by decide) (by decide) hnl))
  have e1 : conv1 ('#' :: '#' :: '#' :: ' ' :: T) = '#' :: '#' :: '#' :: ' ' :: T := by
    unfold conv1
    rw [lineWise_single _ _ hline]
    apply headerLine_inert
    rw [show ("# ".data : List Char) = '#' :: [' '] from rfl, isPref_cons_same]
    exact isPref_head_false (by decide) _ _
  have e2 : conv2 ('#' :: '#' :: '#' :: ' ' :: T) = '#' :: '#' :: '#' :: ' ' :: T := by
    unfold conv2
    rw [lineWise_single _ _ hline]
    apply headerLine_inert
    rw [show ("## ".data : List Char) = '#' :: '#' :: [' '] from rfl, isPref_cons_same,
      isPref_cons_same]
    exact isPref_head_false (by decide) _ _
  have e3 : conv3 ('#' :: '#' :: '#' :: ' ' :: T) =
      "\\subsection\x7b".data ++ T ++ [rbrace] := by
    unfold conv3
    rw [lineWise_single _ _ hline]
    exact headerLine_pos "### ".data "\\subsection\x7b".data T hT
  have hsh : "\\subsection\x7b".data ++ T ++ [rbrace] =
      '\\' :: (("subsection\x7b".data ++ T) ++ [rbrace]) := rfl
  have hRnl : ∀ c ∈ '\\' :: (("subsection\x7b".data ++ T) ++ [rbrace]), c ≠ '\n' :=
    forall_shape _ _ _ (by decide) hnl (by decide) (by decide)
  have hRstar : ∀ c ∈ '\\' :: (("subsection\x7b".data ++ T) ++ [rbrace]), c ≠ '*' :=
    forall_shape _ _ _ (by decide) hstar (by decide) (by decide)
  have hRtick : ∀ c ∈ '\\' :: (("subsection\x7b".data ++ T) ++ [rbrace]), c ≠ btick :=
    forall_shape _ _ _ (by decide) htick (by decide) (by decide)
  have hhd := convs_headers_inert '\\' (("subsection\x7b".data ++ T) ++ [rbrace])
    (by decide) hRnl
  have hls := convs_lists_inert '\\' (("subsection\x7b".data ++ T) ++ [rbrace])
    (by decide) (by decide) hRnl
  simp only [conversions, List.foldl]
  rw [e1, e2, e3, hsh, hhd.2.2.2, conv5_inert _ hRstar, conv6_inert _ hRstar,
    conv7_inert _ hRtick, hls.1, hls.2]

theorem mdCaseSubsubsection (T : List Char) (hT : T ≠ [])
    (hTc : ∀ c ∈ T, c.isAlphanum = true ∨ c = ' ') :
    conversions.foldl (fun l f => f l) ('#' :: '#' :: '#' :: '#' :: ' ' :: T) =
      "\\subsubsection\x7b".data ++ T ++ [rbrace] := by
  obtain ⟨hnl, hstar, htick, _, _, _⟩ := plain_facts T hTc
  have hline : ∀ c ∈ '#' :: '#' :: '#' :: '#' :: ' ' :: T, c ≠ '\n' :=
    forall_cons1 '#' _ (by decide) (forall_cons1 '#' _ (by decide)
      (forall_cons1 '#' _ (by decide) (forall_cons2 '#' ' ' T (by decide) (by decide) hnl)))
  have e1 : conv1 ('#' :: '#' :: '#' :: '#' :: ' ' :: T) =
      '#' :: '#' :: '#' :: '#' :: ' ' :: T := by
    unfold conv1
    rw [lineWise_single _ _ hline]
    apply headerLine_inert
    rw [show ("# ".data : List Char) = '#' :: [' '] from rfl, isPref_cons_same]
    exact isPref_head_false (by decide) _ _
  have e2 : conv2 ('#' :: '#' :: '#' :: '#' :: ' ' :: T) =
      '#' :: '#' :: '#' :: '#' :: ' ' :: T := by
    unfold conv2
    rw [lineWise_single _ _ hline]
    apply headerLine_inert
    rw [show ("## ".data : List Char) = '#' :: '#' :: [' '] from rfl, isPref_cons_same,
      isPref_cons_same]
    exact isPref_head_false (by decide) _ _
  have e3 : conv3 ('#' :: '#' :: '#' :: '#' :: ' ' :: T) =
      '#' :: '#' :: '#' :: '#' :: ' ' :: T := by
    unfold conv3
    rw [lineWise_single _ _ hline]
    apply headerLine_inert
    rw [show ("### ".data : List Char) = '#' :: '#' :: '#' :: [' '] from rfl,
      isPref_cons_same, isPref_cons_same, isPref_cons_same]
    exact isPref_head_false (by decide) _ _
  have e4 : conv4 ('#' :: '#' :: '#' :: '#' :: ' ' :: T) =
      "\\subsubsection\x7b".data ++ T ++ [rbrace] := by
    unfold conv4
    rw [lineWise_single _ _ hline]
    exact headerLine_pos "#### ".data "\\subsubsection\x7b".data T hT
  have hsh : "\\subsubsection\x7b".data ++ T ++ [rbrace] =
      '\\' :: (("subsubsection\x7b".data ++ T) ++ [rbrace]) := rfl
  have hRnl : ∀ c ∈ '\\' :: (("subsubsection\x7b".data ++ T) ++ [rbrace]), c ≠ '\n' :=
    forall_shape _ _ _ (by decide) hnl (by decide) (by decide)
  have hRstar : ∀ c ∈ '\\' :: (("subsubsection\x7b".data ++ T) ++ [rbrace]), c ≠ '*' :=
    forall_shape _ _ _ (by decide) hstar (by decide) (by decide)
  have hRtick : ∀ c ∈ '\\' :: (("subsubsection\x7b".data ++ T) ++ [rbrace]), c ≠ btick :=
    forall_shape _ _ _ (by decide) htick (by decide) (by decide)
  have hls := convs_lists_inert '\\' (("subsubsection\x7b".data ++ T) ++ [rbrace])
    (by decide) (by decide) hRnl
  simp only [conversions, List.foldl]
  rw [e1, e2, e3, e4, hsh, conv5_inert _ hRstar, conv6_inert _ hRstar,
    conv7_inert _ hRtick, hls.1, hls.2]

theorem mdCaseBold (T : List Char) (hT : T ≠ [])
    (hTc : ∀ c ∈ T, c.isAlphanum = true ∨ c = ' ') :
    conversions.foldl (fun l f => f l) ('*' :: '*' :: (T ++ ['*', '*'])) =
      "\\textbf\x7b".data ++ T ++ [rbrace] := by
  obtain ⟨hnl, hstar, htick, _, _, _⟩ := plain_facts T hTc
  have hline : ∀ c ∈ '*' :: '*' :: (T ++ ['*', '*']), c ≠ '\n' :=
    forall_cons2 '*' '*' (T ++ ['*', '*']) (by decide) (by decide)
      (append_facts T ['*', '*'] hnl (by decide))
  have hhd := convs_headers_inert '*' ('*' :: (T ++ ['*', '*'])) (by decide) hline
  have e5 : conv5 ('*' :: '*' :: (T ++ ['*', '*'])) =
      "\\textbf\x7b".data ++ T ++ [rbrace] :=
    subDelim_exact '*' '*' ['*'] ['*'] "\\textbf\x7b".data [rbrace] T hT
      (fun c hc => ⟨hnl c hc, hstar c hc⟩)
  have hsh : "\\textbf\x7b".data ++ T ++ [rbrace] =
      '\\' :: (("textbf\x7b".data ++ T) ++ [rbrace]) := rfl
  have hRnl : ∀ c ∈ '\\' :: (("textbf\x7b".data ++ T) ++ [rbrace]), c ≠ '\n' :=
    forall_shape _ _ _ (by decide) hnl (by decide) (by decide)
  have hRstar : ∀ c ∈ '\\' :: (("textbf\x7b".data ++ T) ++ [rbrace]), c ≠ '*' :=
    forall_shape _ _ _ (by decide) hstar (by decide) (by decide)
  have hRtick : ∀ c ∈ '\\' :: (("textbf\x7b".data ++ T) ++ [rbrace]), c ≠ btick :=
    forall_shape _ _ _ (by decide) htick (by decide) (by decide)
  have hls := convs_lists_inert '\\' (("textbf\x7b".data ++ T) ++ [rbrace])
    (by decide) (by decide) hRnl
  simp only [conversions, List.foldl]
  rw [hhd.1, hhd.2.1, hhd.2.2.1, hhd.2.2.2, e5, hsh, conv6_inert _ hRstar,
    conv7_inert _ hRtick, hls.1, hls.2]

theorem mdCaseItalic (T : List Char) (hT : T ≠ [])
    (hTc : ∀ c ∈ T, c.isAlphanum = true ∨ c = ' ') :
    conversions.foldl (fun l f => f l) ('*' :: (T ++ ['*'])) =
      "\\textit\x7b".data ++ T ++ [rbrace] := by
  obtain ⟨hnl, hstar, htick, _, _, _⟩ := plain_facts T hTc
  have hline : ∀ c ∈ '*' :: (T ++ ['*']), c ≠ '\n' :=
    forall_cons1 '*' (T ++ ['*']) (by decide) (append_facts T ['*'] hnl (by decide))
  have hhd := convs_headers_inert '*' (T ++ ['*']) (by decide) hline
  have e5 : conv5 ('*' :: (T ++ ['*'])) = '*' :: (T ++ ['*']) :=
    conv5_italic_skip T hT hstar
  have e6 : conv6 ('*' :: (T ++ ['*'])) = "\\textit\x7b".data ++ T ++ [rbrace] :=
    subDelim_exact '*' '*' [] [] "\\textit\x7b".data [rbrace] T hT
      (fun c hc => ⟨hnl c hc, hstar c hc⟩)
  have hsh : "\\textit\x7b".data ++ T ++ [rbrace] =
      '\\' :: (("textit\x7b".data ++ T) ++ [rbrace]) := rfl
  have hRnl : ∀ c ∈ '\\' :: (("textit\x7b".data ++ T) ++ [rbrace]), c ≠ '\n' :=
    forall_shape _ _ _ (by decide) hnl (by decide) (by decide)
  have hRtick : ∀ c ∈ '\\' :: (("textit\x7b".data ++ T) ++ [rbrace]), c ≠ btick :=
    forall_shape _ _ _ (by decide) htick (by decide) (by decide)
  have hls := convs_lists_inert '\\' (("textit\x7b".data ++ T) ++ [rbrace])
    (by decide) (by decide) hRnl
  simp only [conversions, List.foldl]
  rw [hhd.1, hhd.2.1, hhd.2.2.1, hhd.2.2.2, e5, e6, hsh, conv7_inert _ hRtick,
    hls.1, hls.2]

theorem mdCaseCode (T : List Char) (hT : T ≠ [])
    (hTc : ∀ c ∈ T, c.isAlphanum = true ∨ c = ' ') :
    conversions.foldl (fun l f => f l) (btick :: (T ++ [btick])) =
      "\\texttt\x7b".data ++ T ++ [rbrace] := by
  obtain ⟨hnl, hstar, htick, _, _, _⟩ := plain_facts T hTc
  have hline : ∀ c ∈ btick :: (T ++ [btick]), c ≠ '\n' :=
    forall_cons1 btick (T ++ [btick]) (by decide) (append_facts T [btick] hnl (by decide))
  have hlineStar : ∀ c ∈ btick :: (T ++ [btick]), c ≠ '*' :=
    forall_cons1 btick (T ++ [btick]) (by decide) (append_facts T [btick] hstar (by decide))
  have hhd := convs_headers_inert btick (T ++ [btick]) (by decide) hline
  have e5 : conv5 (btick :: (T ++ [btick])) = btick :: (T ++ [btick]) :=
    conv5_inert _ hlineStar
  have e6 : conv6 (btick :: (T ++ [btick])) = btick :: (T ++ [btick]) :=
    conv6_inert _ hlineStar
  have e7 : conv7 (btick :: (T ++ [btick])) = "\\texttt\x7b".data ++ T ++ [rbrace] :=
    subDelim_exact btick btick [] [] "\\texttt\x7b".data [rbrace] T hT
      (fun c hc => ⟨hnl c hc, htick c hc⟩)
  have hsh : "\\texttt\x7b".data ++ T ++ [rbrace] =
      '\\' :: (("texttt\x7b".data ++ T) ++ [rbrace]) := rfl
  have hRnl : ∀ c ∈ '\\' :: (("texttt\x7b".data ++ T) ++ [rbrace]), c ≠ '\n' :=
    forall_shape _ _ _ (by decide) hnl (by decide) (by decide)
  have hls := convs_lists_inert '\\' (("texttt\x7b".data ++ T) ++ [rbrace])
    (by decide) (by decide) hRnl
  simp only [conversions, List.foldl]
  rw [hhd.1, hhd.2.1, hhd.2.2.1, hhd.2.2.2, e5, e6, e7, hsh, hls.1, hls.2]

theorem mdCaseDash (T : List Char) (hT : T ≠ [])
    (hTc : ∀ c ∈ T, c.isAlphanum = true ∨ c = ' ') :
    conversions.foldl (fun l f => f l) ('-' :: ' ' :: T) = "\\item ".data ++ T := by
  obtain ⟨hnl, hstar, htick, _, _, _⟩ := plain_facts T hTc
  have hline : ∀ c ∈ '-' :: ' ' :: T, c ≠ '\n' :=
    forall_cons2 '-' ' ' T (by decide) (by decide) hnl
  have hlineStar : ∀ c ∈ '-' :: ' ' :: T, c ≠ '*' :=
    forall_cons2 '-' ' ' T (by decide) (by decide) hstar
  have hlineTick : ∀ c ∈ '-' :: ' ' :: T, c ≠ btick :=
    forall_cons2 '-' ' ' T (by decide) (by decide) htick
  have hhd := convs_headers_inert '-' (' ' :: T) (by decide) hline
  have e5 : conv5 ('-' :: ' ' :: T) = '-' :: ' ' :: T := conv5_inert _ hlineStar
  have e6 : conv6 ('-' :: ' ' :: T) = '-' :: ' ' :: T := conv6_inert _ hlineStar
  have e7 : conv7 ('-' :: ' ' :: T) = '-' :: ' ' :: T := conv7_inert _ hlineTick
  have e8 : conv8 ('-' :: ' ' :: T) = itemCmd ++ T := by
    unfold conv8
    rw [lineWise_single _ _ hline]
    exact dashLine_pos T hT
  have hsh : itemCmd ++ T = '\\' :: ("item ".data ++ T) := rfl
  have hOnl : ∀ c ∈ '\\' :: ("item ".data ++ T), c ≠ '\n' :=
    forall_cons1 '\\' _ (by decide) (append_facts _ _ (by decide) hnl)
  have e9 : conv9 ('\\' :: ("item ".data ++ T)) = '\\' :: ("item ".data ++ T) := by
    unfold conv9
    rw [lineWise_single _ _ hOnl]
    exact numLine_inert '\\' _ (by decide)
  simp only [conversions, List.foldl]
  rw [hhd.1, hhd.2.1, hhd.2.2.1, hhd.2.2.2, e5, e6, e7, e8, hsh, e9]
  rfl

theorem mdCaseNum (ds T : List Char) (hds : ds ≠ []) (hT : T ≠ [])
    (hdsc : ∀ c ∈ ds, c.isDigit = true)
    (hTc : ∀ c ∈ T, c.isAlphanum = true ∨ c = ' ') :
    conversions.foldl (fun l f => f l) (ds ++ ('.' :: ' ' :: T)) =
      "\\item ".data ++ T := by
  obtain ⟨hnl, hstar, htick, _, _, _⟩ := plain_facts T hTc
  obtain ⟨e, ds2, rfl⟩ : ∃ e ds2, ds = e :: ds2 := by
    cases ds with
    | nil => exact absurd rfl hds
    | cons e ds2 => exact ⟨e, ds2, rfl⟩
  have hdE : e.isDigit = true := hdsc e (List.mem_cons_self e ds2)
  have hds2 : ∀ c ∈ ds2, c.isDigit = true :=
    fun c hc => hdsc c (List.mem_cons_of_mem _ hc)
  have hlineNl : ∀ c ∈ e :: (ds2 ++ ('.' :: ' ' :: T)), c ≠ '\n' :=
    forall_cons1 e _ (digit_ne '\n' (by decide) e hdE)
      (append_facts ds2 _ (fun c hc => digit_ne '\n' (by decide) c (hds2 c hc))
        (forall_cons2 '.' ' ' T (by decide) (by decide) hnl))
  have hlineStar : ∀ c ∈ e :: (ds2 ++ ('.' :: ' ' :: T)), c ≠ '*' :=
    forall_cons1 e _ (digit_ne '*' (by decide) e hdE)
      (append_facts ds2 _ (fun c hc => digit_ne '*' (by decide) c (hds2 c hc))
        (forall_cons2 '.' ' ' T (by decide) (by decide) hstar))
  have hlineTick : ∀ c ∈ e :: (ds2 ++ ('.' :: ' ' :: T)), c ≠ btick :=
    forall_cons1 e _ (digit_ne btick (by decide) e hdE)
      (append_facts ds2 _ (fun c hc => digit_ne btick (by decide) c (hds2 c hc))
        (forall_cons2 '.' ' ' T (by decide) (by decide) htick))
  have hhd := convs_headers_inert e (ds2 ++ ('.' :: ' ' :: T))
    (digit_ne '#' (by decide) e hdE) hlineNl
  have e5 : conv5 (e :: (ds2 ++ ('.' :: ' ' :: T))) = e :: (ds2 ++ ('.' :: ' ' :: T)) :=
    conv5_inert _ hlineStar
  have e6 : conv6 (e :: (ds2 ++ ('.' :: ' ' :: T))) = e :: (ds2 ++ ('.' :: ' ' :: T)) :=
    conv6_inert _ hlineStar
  have e7 : conv7 (e :: (ds2 ++ ('.' :: ' ' :: T))) = e :: (ds2 ++ ('.' :: ' ' :: T)) :=
    conv7_inert _ hlineTick
  have e8 : conv8 (e :: (ds2 ++ ('.' :: ' ' :: T))) = e :: (ds2 ++ ('.' :: ' ' :: T)) := by
    unfold conv8
    rw [lineWise_single _ _ hlineNl]
    exact dashLine_inert _ (isPref_head_false (Ne.symm (digit_ne '-' (by decide) e hdE)) _ _)
  have e9 : conv9 (e :: (ds2 ++ ('.' :: ' ' :: T))) = "\\item ".data ++ T := by
    unfold conv9
    rw [lineWise_single _ _ hlineNl]
    have h := numLine_pos (e :: ds2) T (List.cons_ne_nil e ds2) hT hdsc
    rw [List.cons_append] at h
    exact h
  rw [List.cons_append]
  simp only [conversions, List.foldl]
  rw [hhd.1, hhd.2.1, hhd.2.2.1, hhd.2.2.2, e5, e6, e7, e8, e9]

/-! ### Helper lemmas: stripping, dict insertion, and the line parser -/

theorem dropWhile_idem (p : Char → Bool) :
    ∀ l : List Char, (l.dropWhile p).dropWhile p = l.dropWhile p := by
  intro l
  induction l with
  | nil => rfl
  | cons c rest ih =>
    cases hc : p c with
    | true => simp [List.dropWhile_cons, hc, ih]
    | false => simp [List.dropWhile_cons, hc]

theorem lstrip_idem (l : List Char) : lstripC (lstripC l) = lstripC l :=
  dropWhile_idem pyIsSpace l

theorem rstrip_idem (l : List Char) : rstripC (rstripC l) = rstripC l := by
  unfold rstripC
  rw [List.reverse_reverse, dropWhile_idem]

theorem dropWhile_append_last {p : Char → Bool} (c : Char) (hc : p c = false) :
    ∀ l : List Char, ∃ w, (l ++ [c]).dropWhile p = w ++ [c] := by
  intro l
  induction l with
  | nil => exact ⟨[], by simp [List.dropWhile_cons, hc]⟩
  | cons a as ih =>
    cases ha : p a with
    | true =>
      obtain ⟨w, hw⟩ := ih
      exact ⟨w, by simp [List.cons_append, List.dropWhile_cons, ha, hw]⟩
    | false => exact ⟨a :: as, by simp [List.cons_append, List.dropWhile_cons, ha]⟩

theorem dropWhile_length_le (p : Char → Bool) :
    ∀ l : List Char, (l.dropWhile p).length ≤ l.length := by
  intro l
  induction l with
  | nil => simp
  | cons a as ih =>
    cases ha : p a with
    | true =>
      simp only [List.dropWhile_cons, ha, if_true, List.length_cons]
      exact Nat.le_succ_of_le ih
    | false =>
      simp [List.dropWhile_cons, ha]

theorem lstrip_rstrip_of_lstripped (l : List Char) (hl : lstripC l = l) :
    lstripC (rstripC l) = rstripC l := by
  cases l with
  | nil => rfl
  | cons c rest =>
    have hc : pyIsSpace c = false := by
      cases hq : pyIsSpace c with
      | false => rfl
      | true =>
        unfold lstripC at hl
        rw [List.dropWhile_cons, hq] at hl
        have hle2 := dropWhile_length_le pyIsSpace rest
        rw [if_pos rfl] at hl
        rw [hl] at hle2
        simp at hle2
    obtain ⟨w, hw⟩ := dropWhile_append_last c hc (rest.reverse)
    unfold rstripC
    rw [List.reverse_cons, hw, List.reverse_append]
    simp only [List.reverse_cons, List.reverse_nil, List.nil_append, List.singleton_append]
    simp [lstripC, List.dropWhile_cons, hc]

theorem stripC_idem (l : List Char) : stripC (stripC l) = stripC l := by
  unfold stripC
  have h2 : lstripC (rstripC (lstripC l)) = rstripC (lstripC l) :=
    lstrip_rstrip_of_lstripped (lstripC l) (lstrip_idem l)
  rw [h2, rstrip_idem]

theorem dictInsert_mem {α : Type} (p : String × α) :
    ∀ (l : List (String × α)) (k : String) (v : α),
      p ∈ dictInsert l k v → p ∈ l ∨ p = (k, v) := by
  intro l
  induction l with
  | nil =>
    intro k v hp
    simp only [dictInsert] at hp
    right
    rcases List.mem_cons.mp hp with h | h
    · exact h
    · exact absurd h (List.not_mem_nil p)
  | cons kv rest ih =>
    intro k v hp
    by_cases hk : kv.1 = k
    · simp only [dictInsert, if_pos hk] at hp
      rcases List.mem_cons.mp hp with h | h2
      · right; exact h
      · left; exact List.mem_cons_of_mem _ h2
    · simp only [dictInsert, if_neg hk] at hp
      rcases List.mem_cons.mp hp with h | h2
      · left; rw [h]; exact List.mem_cons_self _ _
      · rcases ih k v h2 with h3 | h3
        · left; exact List.mem_cons_of_mem _ h3
        · right; exact h3

theorem trySeps_mem (p : String × String) :
    ∀ (seps : List Char) (answers : List (String × String)) (line : List Char),
      p ∈ trySeps seps answers line →
      p ∈ answers ∨ (p.2 ∈ answerLabels ∧ stripC p.1.data = p.1.data) := by
  intro seps
  induction seps with
  | nil => intro answers line hp; left; exact hp
  | cons sep more ih =>
    intro answers line hp
    simp only [trySeps] at hp
    by_cases hcont : line.any (fun c => c == sep) = true
    · rw [if_pos hcont] at hp
      by_cases hlab :
          String.mk (pyUpperC (stripC (splitFirstC sep line).2)) ∈ answerLabels
      · rw [if_pos hlab] at hp
        rcases dictInsert_mem p answers _ _ hp with h | h
        · left; exact h
        · right
          rw [h]
          exact ⟨hlab, stripC_idem (splitFirstC sep line).1⟩
      · rw [if_neg hlab] at hp
        exact ih answers line hp
    · rw [if_neg hcont] at hp
      exact ih answers line hp

theorem parseLines_mem (p : String × String) :
    ∀ (lines : List (List Char)) (answers : List (String × String)),
      p ∈ parseLines lines answers →
      p ∈ answers ∨ (p.2 ∈ answerLabels ∧ stripC p.1.data = p.1.data) := by
  intro lines
  induction lines with
  | nil => intro answers hp; left; exact hp
  | cons line rest ih =>
    intro answers hp
    simp only [parseLines] at hp
    by_cases hempty : stripC line = []
    · rw [if_pos hempty] at hp
      exact ih answers hp
    · rw [if_neg hempty] at hp
      rcases ih _ hp with h | h
      · exact trySeps_mem p answerSeps answers (stripC line) h
      · right; exact h

/-! ### Helper lemma: the batch loop is a map over the chapter list -/

theorem processChapters_eq_map (kickoff : Chapter → Except String String) :
    ∀ chapters : List Chapter,
      processChapters kickoff chapters =
        chapters.map (fun ch => mkBatchRecord ch (kickoff ch)) := by
  intro chapters
  induction chapters with
  | nil => rfl
  | cons ch rest ih => simp [processChapters, ih]

/-! ### Claim theorems -/

/-- Claim C1, counterexample: the substitution set of `MarkdownToLaTeXTool._run`
is not order-independent.  `conversionsItalicFirst` is a permutation of the
code's `conversions` list (bold and italic interchanged), yet on the input
`**T**` it produces `\textit{*T}*` instead of `\textbf{T}`. -/
theorem C1_counterexample :
    List.Perm conversionsItalicFirst conversions ∧
    applyConvs conversionsItalicFirst "**T**" ≠ MarkdownToLaTeXTool_run "**T**" := by
  constructor
  · show List.Perm ([conv1, conv2, conv3, conv4] ++ conv6 :: conv5 :: [conv7, conv8, conv9])
      ([conv1, conv2, conv3, conv4] ++ conv5 :: conv6 :: [conv7, conv8, conv9])
    exact List.Perm.append_left _ (List.Perm.swap conv5 conv6 _)
  · decide

/-- Claim C1, amended: the Markdown-to-LaTeX conversion applies the fixed
substitution list in the order the code lists it, and the output depends on
that order: applying the italic pattern before the bold pattern (a
permutation of the same set) changes the output on `**T**`. -/
theorem C1_order_dependent :
    MarkdownToLaTeXTool_run "**T**" = "\\textbf\x7bT\x7d" ∧
    applyConvs conversionsItalicFirst "**T**" = "\\textit\x7b*T\x7d*" ∧
    List.Perm conversionsItalicFirst conversions := by
  refine ⟨by decide, by decide, ?_⟩
  show List.Perm ([conv1, conv2, conv3, conv4] ++ conv6 :: conv5 :: [conv7, conv8, conv9])
    ([conv1, conv2, conv3, conv4] ++ conv5 :: conv6 :: [conv7, conv8, conv9])
  exact List.Perm.append_left _ (List.Perm.swap conv5 conv6 _)

/-- Claim C2, counterexample: for a JSON (dict-form) answer-key file the
parser stores the dict verbatim, so a value `"e"` outside the fixed label
set {A, B, C, D} is returned unvalidated and not case-folded. -/
theorem C2_counterexample :
    answersFromJson (PyJson.obj [("1", PyJson.str "e")]) = [("1", PyJson.str "e")] ∧
    AnswerKeyParserTool_run
        ⟨true, Except.ok "dummy content",
          fun _ => Except.ok (PyJson.obj [("1", PyJson.str "e")])⟩
        "input/answer_keys/key.json" = "\x7b\n  \"1\": \"e\"\n\x7d" ∧
    "e" ∉ answerLabels := by
  refine ⟨rfl, by decide, by decide⟩

/-- Claim C2, amended: for line-format (non-JSON) answer-key files, every
pair recorded by `AnswerKeyParserTool._run` has a whitespace-trimmed question
identifier and an answer in the fixed label set {A, B, C, D} (trimmed and
upper-cased by construction). -/
theorem C2_line_values_valid (content : String) (p : String × String)
    (hp : p ∈ answersFromLines content) :
    p.2 ∈ answerLabels ∧ stripC p.1.data = p.1.data := by
  rcases parseLines_mem p _ _ hp with h | h
  · exact absurd h (List.not_mem_nil p)
  · exact h

/-- Witness for the amended Claim C2 at the file content `1. a`. -/
theorem C2_witness :
    ("1", "A") ∈ answersFromLines "1. a" ∧
    ("1", "A").2 ∈ answerLabels ∧ stripC ("1", "A").1.data = ("1", "A").1.data :=
  ⟨by decide, C2_line_values_valid "1. a" ("1", "A") (by decide)⟩

/-- Claim C3: the answer-key file content `1. A\n2,B\n3:C` parses to the
mapping 1 to A, 2 to B, 3 to C, returned as its JSON rendering. -/
theorem C3_answer_key_example :
    answersFromLines "1. A\n2,B\n3:C" = [("1", "A"), ("2", "B"), ("3", "C")] ∧
    AnswerKeyParserTool_run
        ⟨true, Except.ok "1. A\n2,B\n3:C", fun _ => Except.error "not json"⟩
        "input/answer_keys/ch1.txt" =
      "\x7b\n  \"1\": \"A\",\n  \"2\": \"B\",\n  \"3\": \"C\"\n\x7d" := by
  constructor <;> decide

/-- Claim C4: if any job of a batch raises, `run_batch` still records one
per-job result for every one of the N jobs (success, or error with the
exception message), executes every job (each record is determined by its own
kickoff outcome), and tallies successes and failures over all N jobs. -/
theorem C4_batch_isolation (kickoff : Chapter → Except String String)
    (chapters : List Chapter) (k i : Nat) (emsg : String)
    (hk : k < chapters.length) (hi : i < chapters.length)
    (hfail : kickoff (chapters.get ⟨k, hk⟩) = Except.error emsg) :
    (run_batch kickoff chapters).records.length = chapters.length ∧
    (run_batch kickoff chapters).records.get? i =
      some (mkBatchRecord (chapters.get ⟨i, hi⟩) (kickoff (chapters.get ⟨i, hi⟩))) ∧
    (run_batch kickoff chapters).records.get? k =
      some ⟨chapters.get ⟨k, hk⟩, none, "error", some emsg⟩ ∧
    (run_batch kickoff chapters).successful =
      ((run_batch kickoff chapters).records.filter
        (fun r => r.status == "success")).length ∧
    (run_batch kickoff chapters).failed =
      chapters.length - (run_batch kickoff chapters).successful := by
  have hrec : (run_batch kickoff chapters).records =
      chapters.map (fun ch => mkBatchRecord ch (kickoff ch)) :=
    processChapters_eq_map kickoff chapters
  refine ⟨?_, ?_, ?_, rfl, rfl⟩
  · rw [hrec, List.length_map]
  · rw [hrec, List.get?_map, List.get?_eq_get hi]
    rfl
  · rw [hrec, List.get?_map, List.get?_eq_get hk, Option.map_some', hfail]
    rfl

/-- Witness for Claim C4: a three-job batch whose second job raises; the
records list still has three entries and the second records the error. -/
theorem C4_witness :
    (run_batch
        (fun ch => if ch.chapter_name = "B" then Except.error "boom" else Except.ok "done")
        [⟨"i1", "k1", 1, "A", "s"⟩, ⟨"i2", "k2", 2, "B", "s"⟩,
          ⟨"i3", "k3", 3, "C", "s"⟩]).records.length = 3 ∧
    (run_batch
        (fun ch => if ch.chapter_name = "B" then Except.error "boom" else Except.ok "done")
        [⟨"i1", "k1", 1, "A", "s"⟩, ⟨"i2", "k2", 2, "B", "s"⟩,
          ⟨"i3", "k3", 3, "C", "s"⟩]).records.get? 1 =
      some ⟨⟨"i2", "k2", 2, "B", "s"⟩, none, "error", some "boom"⟩ := by
  have h := C4_batch_isolation
    (fun ch => if ch.chapter_name = "B" then Except.error "boom" else Except.ok "done")
    [⟨"i1", "k1", 1, "A", "s"⟩, ⟨"i2", "k2", 2, "B", "s"⟩, ⟨"i3", "k3", 3, "C", "s"⟩]
    1 2 "boom" (by decide) (by decide) rfl
  exact ⟨h.1, h.2.2.1⟩

/-- Claim C5: for a Chapter Job whose image path names a non-existent file,
`OCRTool._run` returns the file-not-found (MissingInput) message and makes no
call to the external AI recognition service (the call indicator is `none`). -/
theorem C5_missing_input_before_service (env : OcrEnv) (file_path : String)
    (himp : env.genaiInstalled = true) (hex : env.fileExists = false) :
    OCRTool_run env file_path = ("[OCR Tool] File not found: " ++ file_path, none) := by
  unfold OCRTool_run
  rw [himp, hex]
  simp

/-- Witness for Claim C5 at a concrete missing image path. -/
theorem C5_witness :
    OCRTool_run ⟨true, "", false, Except.ok (), Except.error "unused"⟩
        "input/question_sheets/ch1.png" =
      ("[OCR Tool] File not found: input/question_sheets/ch1.png", none) :=
  C5_missing_input_before_service _ _ rfl rfl

/-- Claim C6: when the compiler executable is missing (`subprocess.run`
raises `FileNotFoundError`), `LaTeXCompilerTool._run` returns the
ExternalToolError message and the invocation creates no output file. -/
theorem C6_compiler_missing (env : LatexEnv) (tex_file_path output_dir : String)
    (hmk : env.makedirsFail = none) (hout : env.outcome = SubprocOutcome.execMissing) :
    LaTeXCompilerTool_run env tex_file_path output_dir =
      ("[LaTeX Compiler] pdflatex not found. Please install a LaTeX distribution.",
        [⟨["pdflatex", "-output-directory", output_dir, tex_file_path], 120⟩], []) := by
  unfold LaTeXCompilerTool_run
  rw [hmk, hout]

/-- Witness for Claim C6 at a concrete compilation request. -/
theorem C6_witness :
    LaTeXCompilerTool_run ⟨none, SubprocOutcome.execMissing⟩ "output/book/main.tex"
        "output/book" =
      ("[LaTeX Compiler] pdflatex not found. Please install a LaTeX distribution.",
        [⟨["pdflatex", "-output-directory", "output/book", "output/book/main.tex"], 120⟩],
        []) :=
  C6_compiler_missing _ _ _ rfl rfl

/-- Claim C7: the compiler subprocess is invoked exactly once with
`timeout=120` seconds, and when that timeout expires the tool returns the
timeout failure message (no retry: the invocation list is a singleton). -/
theorem C7_timeout_bound (env : LatexEnv) (tex_file_path output_dir : String)
    (created : List String) (hmk : env.makedirsFail = none)
    (hout : env.outcome = SubprocOutcome.timedOut created) :
    (LaTeXCompilerTool_run env tex_file_path output_dir).1 =
      "[LaTeX Compiler] Compilation timed out after 120 seconds." ∧
    (LaTeXCompilerTool_run env tex_file_path output_dir).2.1 =
      [⟨["pdflatex", "-output-directory", output_dir, tex_file_path], 120⟩] := by
  unfold LaTeXCompilerTool_run
  rw [hmk, hout]
  exact ⟨rfl, rfl⟩

/-- Witness for Claim C7 at a concrete timed-out compilation. -/
theorem C7_witness :
    (LaTeXCompilerTool_run ⟨none, SubprocOutcome.timedOut ["output/main.log"]⟩
        "main.tex" "output").1 =
      "[LaTeX Compiler] Compilation timed out after 120 seconds." ∧
    (LaTeXCompilerTool_run ⟨none, SubprocOutcome.timedOut ["output/main.log"]⟩
        "main.tex" "output").2.1 =
      [⟨["pdflatex", "-output-directory", "output", "main.tex"], 120⟩] :=
  C7_timeout_bound _ _ _ ["output/main.log"] rfl rfl

/-- Claim C9: writing to an existing target with `overwrite` false returns
the "File already exists" message and leaves the file system unchanged. -/
theorem C9_no_overwrite (fs : List (String × String)) (filename content : String)
    (directory : Option String) (c0 : String)
    (hex : assocLookup fs
        (String.mk (normPathC (fileWriter_path directory filename).data)) = some c0) :
    FileWriterTool_run fs none filename content directory false =
      ("File already exists at " ++ fileWriter_path directory filename ++
        ". Set overwrite=true to replace it.", fs) := by
  simp only [FileWriterTool_run]
  have hsome : (assocLookup fs
      (String.mk (normPathC (fileWriter_path directory filename).data))).isSome = true := by
    rw [hex]; rfl
  rw [if_pos ⟨hsome, trivial⟩]

/-- Witness for Claim C9: an existing chapter file is not overwritten. -/
theorem C9_witness :
    FileWriterTool_run [("output/chapters/ch1.md", "old")] none "ch1.md" "new content"
        (some "output/chapters") false =
      ("File already exists at output/chapters/ch1.md. Set overwrite=true to replace it.",
        [("output/chapters/ch1.md", "old")]) :=
  C9_no_overwrite [("output/chapters/ch1.md", "old")] "ch1.md" "new content"
    (some "output/chapters") "old" (by decide)

/-- Claim C10: every tool entry point is total at its public interface: the
embeddings return a plain `String` (or `String` paired with effect
indicators) for every environment outcome, and each `except` branch of the
source maps the raised exception to the corresponding error-message string
instead of propagating it.  (`MarkdownToLaTeXTool._run` contains no
fallible operation at all: its embedding is a pure total function, so it has
no exception branch to convert.) -/
theorem C10_exceptions_to_messages
    (e msg content file_path tex_file_path output_dir : String)
    (fs : List (String × String)) (filename wcontent : String)
    (directory : Option String) (overwrite : Bool)
    (jl : String → Except String PyJson) :
    FileReaderTool_run ⟨true, Except.error e, jl⟩ file_path =
      "Error reading file: " ++ e ∧
    FileReaderTool_run ⟨true, Except.ok content, fun _ => Except.error e⟩
        "data/config.json" = "Error reading file: " ++ e ∧
    FileWriterTool_run fs (some e) filename wcontent directory overwrite =
      ("An error occurred while writing to the file: " ++ e, fs) ∧
    AnswerKeyParserTool_run ⟨true, Except.error e, jl⟩ file_path =
      "Error parsing answer key: " ++ e ∧
    AnswerKeyParserTool_run ⟨true, Except.ok content, fun _ => Except.error e⟩
        "input/answer_keys/key.json" = "Error parsing answer key: " ++ e ∧
    (OCRTool_run ⟨true, msg, true, Except.ok (), Except.error e⟩ file_path).1 =
      "[OCR Tool] Error processing file with Gemini: " ++ e ∧
    OCRTool_run ⟨false, msg, true, Except.ok (), Except.ok content⟩ file_path =
      ("[OCR Tool] Google GenAI not installed. Run: pip install google-genai. Error: " ++
        msg, none) ∧
    LaTeXCompilerTool_run ⟨none, SubprocOutcome.raised e⟩ tex_file_path output_dir =
      ("[LaTeX Compiler] Error: " ++ e,
        [⟨["pdflatex", "-output-directory", output_dir, tex_file_path], 120⟩], []) := by
  refine ⟨rfl, ?_, rfl, rfl, ?_, rfl, rfl, rfl⟩
  · have hsuf : pySuffix "data/config.json" = ".json" := by decide
    simp [FileReaderTool_run, hsuf]
  · have hsuf : pySuffix "input/answer_keys/key.json" = ".json" := by decide
    simp [AnswerKeyParserTool_run, hsuf]

/-- Claim C8, counterexample: the structural mapping does not hold for every
text T on its own line: with T the text `a*b`, the line `*a*b*` converts to
`\textit{a}b*` (the non-greedy italic pattern matches the shortest group),
not to `\textit{a*b}`. -/
theorem C8_counterexample :
    MarkdownToLaTeXTool_run "*a*b*" = "\\textit\x7ba\x7db*" ∧
    MarkdownToLaTeXTool_run "*a*b*" ≠ "\\textit\x7ba*b\x7d" := by
  constructor <;> decide

/-- Claim C8, amended: the structural mapping holds for every nonempty text
T consisting of alphanumeric or space characters (no Markdown
metacharacters): headings map to sectioning commands, emphasis markers to
styling commands, and list markers to `\item` lines (the numbered-list case
for every nonempty digit string `ds`). -/
theorem C8_structural_mapping (T ds : List Char) (hT : T ≠ []) (hds : ds ≠ [])
    (hTc : ∀ c ∈ T, c.isAlphanum = true ∨ c = ' ')
    (hdsc : ∀ c ∈ ds, c.isDigit = true) :
    MarkdownToLaTeXTool_run (String.mk ('#' :: ' ' :: T)) =
      String.mk ("\\chapter\x7b".data ++ T ++ [rbrace]) ∧
    MarkdownToLaTeXTool_run (String.mk ('#' :: '#' :: ' ' :: T)) =
      String.mk ("\\section\x7b".data ++ T ++ [rbrace]) ∧
    MarkdownToLaTeXTool_run (String.mk ('#' :: '#' :: '#' :: ' ' :: T)) =
      String.mk ("\\subsection\x7b".data ++ T ++ [rbrace]) ∧
    MarkdownToLaTeXTool_run (String.mk ('#' :: '#' :: '#' :: '#' :: ' ' :: T)) =
      String.mk ("\\subsubsection\x7b".data ++ T ++ [rbrace]) ∧
    MarkdownToLaTeXTool_run (String.mk ('*' :: '*' :: (T ++ ['*', '*']))) =
      String.mk ("\\textbf\x7b".data ++ T ++ [rbrace]) ∧
    MarkdownToLaTeXTool_run (String.mk ('*' :: (T ++ ['*']))) =
      String.mk ("\\textit\x7b".data ++ T ++ [rbrace]) ∧
    MarkdownToLaTeXTool_run (String.mk (btick :: (T ++ [btick]))) =
      String.mk ("\\texttt\x7b".data ++ T ++ [rbrace]) ∧
    MarkdownToLaTeXTool_run (String.mk ('-' :: ' ' :: T)) =
      String.mk ("\\item ".data ++ T) ∧
    MarkdownToLaTeXTool_run (String.mk (ds ++ ('.' :: ' ' :: T))) =
      String.mk ("\\item ".data ++ T) := by
  refine ⟨?_, ?_, ?_, ?_, ?_, ?_, ?_, ?_, ?_⟩
  · exact congrArg String.mk (mdCaseChapter T hT hTc)
  · exact congrArg String.mk (mdCaseSection T hT hTc)
  · exact congrArg String.mk (mdCaseSubsection T hT hTc)
  · exact congrArg String.mk (mdCaseSubsubsection T hT hTc)
  · exact congrArg String.mk (mdCaseBold T hT hTc)
  · exact congrArg String.mk (mdCaseItalic T hT hTc)
  · exact congrArg String.mk (mdCaseCode T hT hTc)
  · exact congrArg String.mk (mdCaseDash T hT hTc)
  · exact congrArg String.mk (mdCaseNum ds T hds hT hdsc hTc)

/-- Witness for the amended Claim C8 at the text `Q` and digit string `1`. -/
theorem C8_witness :
    MarkdownToLaTeXTool_run (String.mk ['#', ' ', 'Q']) =
      String.mk ("\\chapter\x7b".data ++ ['Q'] ++ [rbrace]) ∧
    MarkdownToLaTeXTool_run (String.mk (['1'] ++ ('.' :: ' ' :: ['Q']))) =
      String.mk ("\\item ".data ++ ['Q']) := by
  have h := C8_structural_mapping ['Q'] ['1'] (by decide) (by decide) (by decide) (by decide)
  exact ⟨h.1, h.2.2.2.2.2.2.2.2⟩
